import Mathlib

set_option maxRecDepth 10000

/-!
# Verification of the slice-sampling and normalization engine of `code/data.py`

This file is a shallow embedding of the data-access layer in `src/code/data.py`:
building a per-study statistics summary (`create_summary`) and loading
normalized slices of imaging data (`load`).

Modelling conventions:

* NumPy floating-point scalars are modelled exactly as rationals (`ℚ`); the one
  operation that can produce a non-finite float (`inf`/`nan`), namely the
  division by a study's `sd` in the normalization step, is modelled by the type
  `FloatVal` which separates finite values from non-finite ones.
* The int16 voxels of `dat.npy` are modelled as `Int`, the uint8 voxels of
  `lbl.npy` as `ℕ`.
* A study's on-disk volume pair is modelled by `Volume`, already reshaped the
  way `load` reshapes the flat memory-mapped files: `dat` to
  `(nslices, 240, 240, 4)` and `lbl` to `(nslices, 240, 240, 1)` (the label's
  trailing channel axis of extent 1 is suppressed in the model; the stacked
  output arrays carry it in their recorded shapes).  The arrays are total
  functions, mirroring read-only memory-mapped buffers.
* The filesystem is a map from `(root, studyid)` to the study's `Volume`
  (`load` opens `'%s/%s/dat.npy' % (root, stats['studyid'])` and the matching
  `lbl.npy`); a missing study directory is a `fileNotFound` failure.
* `np.random` is modelled by an explicit tape `ℕ → DrawRand`: entry `i` holds
  the values the `i`-th stratified draw consumes — the `np.random.randint`
  study draw (a value uniformly distributed in `[0, cohort length)`, embedded
  as `studyIdx % length`), the stratification coin (`np.random.rand() > 0.5`,
  an event of probability 1/2), and the permutation `np.random.shuffle`
  applies to the candidate index array.
* Failures that CPython raises as exceptions are `Except` errors: `indexError`
  for an out-of-range (or empty-array) index access, `valueError` for
  `np.random.randint(0, 0, n)` and for `np.stack` of an empty sequence,
  `fileNotFound` for a missing volume file.
* The `global root, summary` state read by `load` is an explicit
  `GlobalState` threaded through every step, so that the absence of writes to
  it is a provable property rather than a convention.
-/

namespace DataPy

/-- NumPy dtypes occurring in this module. -/
inductive DType
  | int16
  | uint8
  | float16
  | float32
  | float64
  | bool8
  deriving DecidableEq, Repr

/-- A floating-point result: a finite value (modelled exactly as a rational) or
a non-finite one (`inf`/`-inf`/`nan`, as NumPy produces when dividing by 0). -/
inductive FloatVal
  | finite (q : ℚ)
  | nonfinite
  deriving DecidableEq

/-- The runtime failures of `load`, named after the Python exceptions:
`indexError` for `z[0]` on an empty candidate array or an out-of-range
`dat[z]`; `valueError` for `np.random.randint(0, 0, n)` (empty cohort) and
`np.stack` of an empty list; `fileNotFound` for a missing `dat.npy`/`lbl.npy`. -/
inductive LoadErr
  | indexError
  | valueError
  | fileNotFound
  deriving DecidableEq, Repr

/-- The two cohorts of the summary dictionary. -/
inductive Mode
  | train
  | valid
  deriving DecidableEq, Repr

/-- One entry of a cohort list in the summary dictionary:
`{'studyid': sid, 'mean': m, 'sd': s}`. -/
structure StudyRecord where
  studyid : String
  mean : ℚ
  sd : ℚ
  deriving DecidableEq

/-- The summary dictionary `{'train': [...], 'valid': [...]}`. -/
structure Summary where
  train : List StudyRecord
  valid : List StudyRecord
  deriving DecidableEq

/-- The cohort access `summary[mode]`. -/
def Summary.get (s : Summary) : Mode → List StudyRecord
  | Mode.train => s.train
  | Mode.valid => s.valid

/-- One study's on-disk volume pair, reshaped as `load` reshapes it:
`dat.npy` to `(nslices, 240, 240, 4)` int16 and `lbl.npy` to
`(nslices, 240, 240, 1)` uint8 (the trailing axis of extent 1 suppressed). -/
structure Volume where
  nslices : ℕ
  dat : ℕ → ℕ → ℕ → ℕ → Int
  lbl : ℕ → ℕ → ℕ → ℕ

/-- The global state `load` reads: `root` and the loaded `summary`. -/
structure GlobalState where
  root : String
  summary : Summary

/-- The random values one stratified draw consumes: the `np.random.randint`
study draw, the stratification coin `np.random.rand() > 0.5`, and the
permutation applied by `np.random.shuffle` to the candidate index array. -/
structure DrawRand where
  studyIdx : ℕ
  coin : Bool
  shuffle : List ℕ → List ℕ

/-- How the slice index of one loop iteration is determined: the caller's `z`
in exact mode, or the stratified random draw in random mode. -/
inductive SliceSel
  | exact (z : ℤ)
  | random (dr : DrawRand)

/-- The per-slice label reduction `np.sum(lbl, axis=(1,2,3))[z]`: the number of positive
label voxels... more precisely the sum of the uint8 label values of slice `z`
over the two spatial axes (the channel axis has extent 1). -/
def sliceSum (v : Volume) (z : ℕ) : ℕ :=
  ((List.range 240).map (fun i => ((List.range 240).map (fun j => v.lbl z i j)).sum)).sum

/-- The candidate set `np.nonzero(reduce_sum > 0)[0]`: the ascending list of slice indices whose
label slice contains at least one positive voxel. -/
def posCandidates (v : Volume) : List ℕ :=
  (List.range v.nslices).filter (fun z => decide (0 < sliceSum v z))

/-- The candidate set `np.nonzero(reduce_sum == 0)[0]`: the ascending list of slice indices whose
label slice contains no positive voxel. -/
def negCandidates (v : Volume) : List ℕ :=
  (List.range v.nslices).filter (fun z => decide (sliceSum v z = 0))

/-- NumPy basic indexing along the first axis of an array of extent `len`:
`0 ≤ z < len` is taken as is, `-len ≤ z < 0` counts from the end
(`z = -1` is the last position), anything else raises `IndexError`. -/
def npIndex (len : ℕ) (z : ℤ) : Except LoadErr ℕ :=
  if 0 ≤ z ∧ z < (len : ℤ) then Except.ok z.toNat
  else if -(len : ℤ) ≤ z ∧ z < 0 then Except.ok ((len : ℤ) + z).toNat
  else Except.error LoadErr.indexError

/-- The list comprehension
`[n for n, stats in enumerate(summary[mode]) if stats['studyid'] == sid]`:
the ascending list of positions of the records matching `sid`. -/
def matchIndices (records : List StudyRecord) (sid : String) : List ℕ :=
  (List.range records.length).filter
    (fun i => decide ((records.get? i).map StudyRecord.studyid = some sid))

/-- The `for mode in ['train', 'valid']` scan of the exact-lookup branch:
the first cohort (train scanned before valid) holding a record whose
`studyid` matches, together with the position of its first matching record;
`none` when no record in either cohort matches. -/
def scanExact (summary : Summary) (sid : String) : Option (Mode × ℕ) :=
  match matchIndices summary.train sid with
  | i :: _ => some (Mode.train, i)
  | [] =>
    match matchIndices summary.valid sid with
    | i :: _ => some (Mode.valid, i)
    | [] => none

/-- Result dtype of the normalization `(dat[z] - stats['mean']) / stats['sd']`:
`dat[z]` is an int16 array, and the two statistics are float64 scalars
(produced by `np.mean`/`np.std` over int16 data).  Under NumPy's value-based
casting for mixed array/scalar operations (NumPy 1.x, contemporary with this
code), a float64 scalar whose value lies in the float16 range has minimum
scalar type float16, and `promote_types(int16, float16) = float32`; the
statistics of an int16 volume are bounded by 32767, so the normalized array
has dtype float32 — matching the docstring's `dtype = 'float32'`. -/
def normDType : DType := DType.float32

/-- One element of `(dat[z] - stats['mean']) / stats['sd']`: dividing by
`sd = 0` yields a non-finite float (`inf`/`-inf`/`nan`), never an error. -/
def normVal (v : Int) (mean sd : ℚ) : FloatVal :=
  if sd = 0 then FloatVal.nonfinite else FloatVal.finite (((v : ℚ) - mean) / sd)

/-- The three per-iteration results appended to `msks`/`dats`/`lbls`:
`dat[z, ..., :1] > 0` (still boolean — the `astype('float32')` happens after
stacking), the normalized `(dat[z] - mean) / sd`, and `lbl[z]`. -/
structure SliceTriple where
  msk : ℕ → ℕ → Bool
  dat : ℕ → ℕ → ℕ → FloatVal
  lbl : ℕ → ℕ → ℕ

/-- A batched NumPy array: its 4-component shape, its dtype, and its entries
as a total function over indices (entries outside the shape are padding). -/
structure NpArr4 (α : Type) where
  shape : ℕ × ℕ × ℕ × ℕ
  dtype : DType
  val : ℕ → ℕ → ℕ → ℕ → α

/-- The batched input `np.stack(dats, axis=0)`: each `dat[z]` has shape `(240, 240, 4)` and the
normalization's dtype (see `normDType`); stacking `n` of them prepends a batch
axis of extent `n`, in draw order. -/
def stackDats (ts : List SliceTriple) : NpArr4 FloatVal :=
  { shape := (ts.length, 240, 240, 4)
    dtype := normDType
    val := fun b i j c =>
      match ts.get? b with
      | some t => t.dat i j c
      | none => FloatVal.finite 0 }

/-- The batched label `np.stack(lbls, axis=0)`: each `lbl[z]` has shape `(240, 240, 1)` and
dtype uint8. -/
def stackLbls (ts : List SliceTriple) : NpArr4 ℕ :=
  { shape := (ts.length, 240, 240, 1)
    dtype := DType.uint8
    val := fun b i j _ =>
      match ts.get? b with
      | some t => t.lbl i j
      | none => 0 }

/-- The batched mask `np.stack(msks, axis=0).astype('float32')`: each boolean
`dat[z, ..., :1] > 0` has shape `(240, 240, 1)`; after stacking, the cast to
float32 turns `True`/`False` into `1.0`/`0.0`. -/
def stackMsks (ts : List SliceTriple) : NpArr4 ℚ :=
  { shape := (ts.length, 240, 240, 1)
    dtype := DType.float32
    val := fun b i j _ =>
      match ts.get? b with
      | some t => if t.msk i j then (1 : ℚ) else 0
      | none => 0 }

/-- The value `load` returns: the stacked normalized inputs and labels, and —
only when `return_mask` was set — the stacked float32 masks. -/
structure LoadResult where
  dats : NpArr4 FloatVal
  lbls : NpArr4 ℕ
  msks : Option (NpArr4 ℚ)

/-- The three values one loop iteration appends (for resolved slice index
`z`): `msks.append(dat[z, ..., :1] > 0)`,
`dats.append((dat[z] - stats['mean']) / stats['sd'])`, `lbls.append(lbl[z])`. -/
def mkTriple (vol : Volume) (stats : StudyRecord) (z : ℕ) : SliceTriple :=
  { msk := fun i j => decide (0 < vol.dat z i j 0)
    dat := fun i j c => normVal (vol.dat z i j c) stats.mean stats.sd
    lbl := fun i j => vol.lbl z i j }

/-- One iteration of the `for ind in indices` loop of `load`:
look up `stats = summary[mode][ind]`, memory-map the study's volumes,
determine the slice index (the stratified draw in random mode, the caller's
`z` in exact mode), and produce the mask/normalized-input/label triple. -/
def processOne (fs : String → String → Option Volume) (root : String)
    (records : List StudyRecord) (sel : SliceSel) (ind : ℕ) :
    Except LoadErr SliceTriple :=
  match records.get? ind with
  | none => Except.error LoadErr.indexError
  | some stats =>
    match fs root stats.studyid with
    | none => Except.error LoadErr.fileNotFound
    | some vol =>
      let zRes : Except LoadErr ℤ :=
        match sel with
        | SliceSel.exact zv => Except.ok zv
        | SliceSel.random dr =>
          match dr.shuffle (if dr.coin then posCandidates vol else negCandidates vol) with
          | [] => Except.error LoadErr.indexError
          | z0 :: _ => Except.ok (z0 : ℤ)
      match zRes with
      | Except.error e => Except.error e
      | Except.ok zRaw =>
        match npIndex vol.nslices zRaw with
        | Except.error e => Except.error e
        | Except.ok z => Except.ok (mkTriple vol stats z)

/-- The whole `for ind in indices` loop, threading the global state through
each iteration (no iteration writes it); the first failing iteration aborts
the call, as the corresponding Python exception would. -/
def processAll (fs : String → String → Option Volume) (records : List StudyRecord)
    (sels : List (ℕ × SliceSel)) (st : GlobalState) :
    Except LoadErr (List SliceTriple) × GlobalState :=
  match sels with
  | [] => (Except.ok [], st)
  | p :: rest =>
    match processOne fs st.root records p.2 p.1 with
    | Except.error e => (Except.error e, st)
    | Except.ok t =>
      match processAll fs records rest st with
      | (Except.error e, st') => (Except.error e, st')
      | (Except.ok ts, st') => (Except.ok (t :: ts), st')

/-- The tail of `load` after the selection: run the loop, then
`np.stack` the accumulated lists (stacking an empty sequence raises
`ValueError`), returning the masks only when `return_mask` is set. -/
def finish (fs : String → String → Option Volume) (records : List StudyRecord)
    (sels : List (ℕ × SliceSel)) (return_mask : Bool) (st : GlobalState) :
    Except LoadErr LoadResult × GlobalState :=
  match processAll fs records sels st with
  | (Except.error e, st') => (Except.error e, st')
  | (Except.ok ts, st') =>
    match ts with
    | [] => (Except.error LoadErr.valueError, st')
    | _ :: _ =>
      (Except.ok
        { dats := stackDats ts
          lbls := stackLbls ts
          msks := if return_mask then some (stackMsks ts) else none }, st')

/-- The draw list `indices = np.random.randint(0, len(summary[mode]), n)` paired with the
per-draw random values: `randint` with an empty range raises `ValueError`;
otherwise draw `i` selects the study position `(tape i).studyIdx % len`
(uniform in `[0, len)`) and will consume `tape i`'s coin and shuffle. -/
def randomSels (tape : ℕ → DrawRand) (len n : ℕ) :
    Except LoadErr (List (ℕ × SliceSel)) :=
  if len = 0 then Except.error LoadErr.valueError
  else Except.ok ((List.range n).map (fun i => ((tape i).studyIdx % len, SliceSel.random (tape i))))

/-- The operation `load(mode, n, sid, z, return_mask)`.  When both `sid` and `z` are given,
the exact-lookup scan runs first: a match fixes `indices = [first match]` and
the cohort (`mode` is the loop variable of the scan, so the caller's `mode` is
overwritten); when the scan finds nothing, `random` is still `True` and `mode`
has been left at `'valid'`, so the call falls through to drawing `n` random
slices from the valid cohort.  Without `sid` and `z`, `n` random stratified
draws are taken from the requested cohort. -/
def load (fs : String → String → Option Volume) (st : GlobalState) (mode : Mode)
    (n : ℕ) (sid : Option String) (z : Option ℤ) (return_mask : Bool)
    (tape : ℕ → DrawRand) : Except LoadErr LoadResult × GlobalState :=
  match sid, z with
  | some s, some zv =>
    match scanExact st.summary s with
    | some (m, i) => finish fs (st.summary.get m) [(i, SliceSel.exact zv)] return_mask st
    | none =>
      match randomSels tape st.summary.valid.length n with
      | Except.error e => (Except.error e, st)
      | Except.ok sels => finish fs st.summary.valid sels return_mask st
  | _, _ =>
    match randomSels tape (st.summary.get mode).length n with
    | Except.error e => (Except.error e, st)
    | Except.ok sels => finish fs (st.summary.get mode) sels return_mask st

/-- Whether the call returned data: true exactly on `Except.ok`. -/
def isOk {ε α : Type} : Except ε α → Bool
  | Except.ok _ => true
  | Except.error _ => false

/-- The stacked input array of a successful call (junk on a failed one). -/
def theDats (x : Except LoadErr LoadResult) : NpArr4 FloatVal :=
  match x with
  | Except.ok r => r.dats
  | Except.error _ => ⟨(0, 0, 0, 0), DType.float64, fun _ _ _ _ => FloatVal.nonfinite⟩

/-- The stacked label array of a successful call (junk on a failed one). -/
def theLbls (x : Except LoadErr LoadResult) : NpArr4 ℕ :=
  match x with
  | Except.ok r => r.lbls
  | Except.error _ => ⟨(0, 0, 0, 0), DType.float64, fun _ _ _ _ => 0⟩

/-- The optional stacked mask array of a successful call. -/
def theMsks (x : Except LoadErr LoadResult) : Option (NpArr4 ℚ) :=
  match x with
  | Except.ok r => r.msks
  | Except.error _ => none

/-- The stacked mask array itself (junk — value 2 everywhere — if absent). -/
def theMsk (x : Except LoadErr LoadResult) : NpArr4 ℚ :=
  (theMsks x).getD ⟨(0, 0, 0, 0), DType.float64, fun _ _ _ _ => 2⟩

/-! ## `create_summary` -/

/-- One scanned study directory `root/<sid>/dat.npy`: the directory basename
and the flat int16 contents of the volume file. -/
structure ScannedStudy where
  sid : String
  dat : List Int
  deriving DecidableEq

/-- The positive-voxel selection `dat[dat > 0]`. -/
def posVoxels (dat : List Int) : List Int := dat.filter (fun x => decide (0 < x))

/-- The record `{'studyid': sid, 'mean': np.mean(dat[dat > 0]),
'sd': np.std(dat[dat > 0])}`.  The mean is the exact rational mean of the
positive voxels; the standard deviation is the square root of their
population variance, which is irrational in general, so the builder takes the
(float) square-root function `sq` as an explicit parameter and stores
`sq variance`. -/
def studyRecordOf (sq : ℚ → ℚ) (s : ScannedStudy) : StudyRecord :=
  let pos := posVoxels s.dat
  let m : ℚ := (pos.map (fun x => (x : ℚ))).sum / pos.length
  { studyid := s.sid
    mean := m
    sd := sq ((pos.map (fun x => ((x : ℚ) - m) ^ 2)).sum / pos.length) }

/-- The `for n, dfile in enumerate(dfiles)` loop of `create_summary`:
`coins k` models the `k`-th `np.random.rand() > valid_ratio` draw, sending the
`k`-th scanned study to `train` on `true` and to `valid` on `false`; each
record is appended to exactly one of the two cohort lists. -/
def buildSummary (sq : ℚ → ℚ) (coins : ℕ → Bool) :
    ℕ → List ScannedStudy → Summary → Summary
  | _, [], acc => acc
  | k, s :: rest, acc =>
    let r := studyRecordOf sq s
    buildSummary sq coins (k + 1) rest
      (if coins k then { acc with train := acc.train ++ [r] }
       else { acc with valid := acc.valid ++ [r] })

/-- The builder `create_summary`: scan the study directories in order and build the
summary dictionary, starting from `{'train': [], 'valid': []}`. -/
def create_summary (sq : ℚ → ℚ) (studies : List ScannedStudy)
    (coins : ℕ → Bool) : Summary :=
  buildSummary sq coins 0 studies ⟨[], []⟩

/-! ## Concrete fixtures

Small summaries, volumes, filesystems and random tapes used to instantiate
the theorems below on concrete inputs.  `volNeg` has no positive label voxel
anywhere, `volPos` has positive label voxels in every slice, and `volMix` has
a negative slice 0 and a positive slice 1. -/

def recA : StudyRecord := ⟨"s0", 1, 2⟩

def recB : StudyRecord := ⟨"s1", 3, 5⟩

def recZ : StudyRecord := ⟨"sz", 3, 0⟩

def volNeg : Volume := ⟨2, fun _ _ _ _ => 5, fun _ _ _ => 0⟩

def volPos : Volume := ⟨2, fun _ _ _ _ => 7, fun _ _ _ => 1⟩

def volMix : Volume := ⟨2, fun z _ _ _ => (z : Int) + 10, fun z _ _ => z⟩

def sumAB : Summary := ⟨[recA], [recB]⟩

def stAB : GlobalState := ⟨"rootdir", sumAB⟩

def sumZrec : Summary := ⟨[recZ], []⟩

def stZrec : GlobalState := ⟨"rootdir", sumZrec⟩

def recDup : StudyRecord := ⟨"s0", 9, 9⟩

def sumDup : Summary := ⟨[recA], [recDup]⟩

def stDup : GlobalState := ⟨"rootdir", sumDup⟩

def fsNeg : String → String → Option Volume := fun _ _ => some volNeg

def fsPos : String → String → Option Volume := fun _ _ => some volPos

def fsMix : String → String → Option Volume := fun _ _ => some volMix

def tapeNeg : ℕ → DrawRand := fun _ => ⟨0, false, id⟩

def tapePos : ℕ → DrawRand := fun _ => ⟨0, true, id⟩

def studiesW : List ScannedStudy := [⟨"a", [1, -2, 3]⟩, ⟨"b", [0]⟩]

def coinsW : ℕ → Bool := fun k => k % 2 == 0

/-! ## Helper lemmas -/

lemma sum_map_eq_const {α : Type} (l : List α) (f : α → ℕ) (c : ℕ)
    (h : ∀ x ∈ l, f x = c) : (l.map f).sum = l.length * c := by
  induction l with
  | nil => simp
  | cons a t ih =>
    have ha : f a = c := h a (by simp)
    have ht : ∀ x ∈ t, f x = c := fun x hx => h x (by simp [hx])
    simp [ha, ih ht, Nat.succ_mul, Nat.add_comm]

lemma sliceSum_of_const (v : Volume) (z c : ℕ) (h : ∀ i j, v.lbl z i j = c) :
    sliceSum v z = 240 * (240 * c) := by
  unfold sliceSum
  rw [sum_map_eq_const _ _ (240 * c)]
  · simp
  · intro i _
    rw [sum_map_eq_const _ _ c]
    · simp
    · intro j _
      exact h i j

lemma processAll_state (fs : String → String → Option Volume)
    (records : List StudyRecord) :
    ∀ (sels : List (ℕ × SliceSel)) (st : GlobalState),
      (processAll fs records sels st).2 = st := by
  intro sels
  induction sels with
  | nil => intro st; rfl
  | cons p rest ih =>
    intro st
    simp only [processAll]
    cases processOne fs st.root records p.2 p.1 with
    | error e => rfl
    | ok t =>
      have h2 := ih st
      cases hq : processAll fs records rest st with
      | mk a st' =>
        rw [hq] at h2
        cases a <;> simpa using h2

lemma processAll_length (fs : String → String → Option Volume)
    (records : List StudyRecord) :
    ∀ (sels : List (ℕ × SliceSel)) (st : GlobalState) (ts : List SliceTriple),
      (processAll fs records sels st).1 = Except.ok ts → ts.length = sels.length := by
  intro sels
  induction sels with
  | nil =>
    intro st ts h
    simp only [processAll] at h
    cases h
    rfl
  | cons p rest ih =>
    intro st ts h
    simp only [processAll] at h
    cases hp : processOne fs st.root records p.2 p.1 with
    | error e => rw [hp] at h; cases h
    | ok t =>
      rw [hp] at h
      cases hq : processAll fs records rest st with
      | mk a st' =>
        rw [hq] at h
        cases a with
        | error e => cases h
        | ok ts' =>
          cases h
          have := ih st ts' (by rw [hq])
          simp [this]

lemma processAll_get (fs : String → String → Option Volume)
    (records : List StudyRecord) :
    ∀ (sels : List (ℕ × SliceSel)) (st : GlobalState) (ts : List SliceTriple),
      (processAll fs records sels st).1 = Except.ok ts →
      ∀ (i : ℕ) (p : ℕ × SliceSel), sels.get? i = some p →
      ∃ t, ts.get? i = some t ∧ processOne fs st.root records p.2 p.1 = Except.ok t := by
  intro sels
  induction sels with
  | nil =>
    intro st ts _ i p hp
    simp at hp
  | cons q rest ih =>
    intro st ts h i p hp
    simp only [processAll] at h
    cases hq : processOne fs st.root records q.2 q.1 with
    | error e => rw [hq] at h; cases h
    | ok t =>
      rw [hq] at h
      cases hr : processAll fs records rest st with
      | mk a st' =>
        rw [hr] at h
        cases a with
        | error e => cases h
        | ok ts' =>
          cases h
          cases i with
          | zero =>
            cases hp
            exact ⟨t, rfl, hq⟩
          | succ i' =>
            exact ih st ts' (by rw [hr]) i' p hp

lemma matchIndices_eq_nil {records : List StudyRecord} {sid : String}
    (h : ∀ r ∈ records, r.studyid ≠ sid) : matchIndices records sid = [] := by
  unfold matchIndices
  rw [List.filter_eq_nil_iff]
  intro i _
  simp only [decide_eq_true_eq]
  cases hg : records.get? i with
  | none => simp
  | some r =>
    have hm : r ∈ records := List.get?_mem hg
    simp [h r hm]

lemma scanExact_of_all_ne {summary : Summary} {sid : String}
    (h : (summary.train ++ summary.valid).all (fun r => !(r.studyid == sid)) = true) :
    scanExact summary sid = none := by
  have h' : ∀ r ∈ summary.train ++ summary.valid, r.studyid ≠ sid := by
    intro r hr
    have := List.all_eq_true.mp h r hr
    simpa using this
  unfold scanExact
  rw [matchIndices_eq_nil (fun r hr => h' r (by simp [hr])),
      matchIndices_eq_nil (fun r hr => h' r (by simp [hr]))]

lemma scanExact_cases {summary : Summary} {sid : String} {m : Mode} {i : ℕ}
    (h : scanExact summary sid = some (m, i)) :
    (matchIndices summary.train sid ≠ [] →
        m = Mode.train ∧ (matchIndices summary.train sid).head? = some i) ∧
    (matchIndices summary.train sid = [] →
        m = Mode.valid ∧ (matchIndices summary.valid sid).head? = some i) := by
  unfold scanExact at h
  cases ht : matchIndices summary.train sid with
  | cons a l =>
    rw [ht] at h
    have hm : m = Mode.train ∧ a = i := by
      cases h
      exact ⟨rfl, rfl⟩
    constructor
    · intro _
      exact ⟨hm.1, by simp [hm.2]⟩
    · intro hnil
      cases hnil
  | nil =>
    rw [ht] at h
    cases hv : matchIndices summary.valid sid with
    | nil => rw [hv] at h; cases h
    | cons a l =>
      rw [hv] at h
      have hm : m = Mode.valid ∧ a = i := by
        cases h
        exact ⟨rfl, rfl⟩
      constructor
      · intro hne
        cases hne rfl
      · intro _
        exact ⟨hm.1, by simp [hm.2]⟩

lemma sliceSum_volNeg (z : ℕ) : sliceSum volNeg z = 0 := by
  simpa using sliceSum_of_const volNeg z 0 (fun _ _ => rfl)

lemma sliceSum_volPos (z : ℕ) : sliceSum volPos z = 57600 := by
  simpa using sliceSum_of_const volPos z 1 (fun _ _ => rfl)

lemma sliceSum_volMix (z : ℕ) : sliceSum volMix z = 57600 * z := by
  have h := sliceSum_of_const volMix z z (fun _ _ => rfl)
  rw [h]
  ring

lemma posCandidates_volNeg : posCandidates volNeg = [] := by
  unfold posCandidates
  have h : ∀ a ∈ List.range volNeg.nslices,
      decide (0 < sliceSum volNeg a) = (fun _ : ℕ => false) a := by
    intro a _
    show decide (0 < sliceSum volNeg a) = false
    rw [sliceSum_volNeg a]
    rfl
  rw [List.filter_congr h, List.filter_false]

lemma negCandidates_volNeg : negCandidates volNeg = [0, 1] := by
  unfold negCandidates
  have h : ∀ a ∈ List.range volNeg.nslices,
      decide (sliceSum volNeg a = 0) = (fun _ : ℕ => true) a := by
    intro a _
    show decide (sliceSum volNeg a = 0) = true
    rw [sliceSum_volNeg a]
    rfl
  rw [List.filter_congr h, List.filter_true]
  rfl

lemma posCandidates_volPos : posCandidates volPos = [0, 1] := by
  unfold posCandidates
  have h : ∀ a ∈ List.range volPos.nslices,
      decide (0 < sliceSum volPos a) = (fun _ : ℕ => true) a := by
    intro a _
    show decide (0 < sliceSum volPos a) = true
    rw [sliceSum_volPos a]
    rfl
  rw [List.filter_congr h, List.filter_true]
  rfl

lemma negCandidates_volPos : negCandidates volPos = [] := by
  unfold negCandidates
  have h : ∀ a ∈ List.range volPos.nslices,
      decide (sliceSum volPos a = 0) = (fun _ : ℕ => false) a := by
    intro a _
    show decide (sliceSum volPos a = 0) = false
    rw [sliceSum_volPos a]
    rfl
  rw [List.filter_congr h, List.filter_false]

lemma posCandidates_volMix : posCandidates volMix = [1] := by
  unfold posCandidates
  have h : ∀ a ∈ List.range volMix.nslices,
      decide (0 < sliceSum volMix a) = decide (0 < 57600 * a) := by
    intro a _
    rw [sliceSum_volMix a]
  rw [List.filter_congr h]
  rfl

lemma negCandidates_volMix : negCandidates volMix = [0] := by
  unfold negCandidates
  have h : ∀ a ∈ List.range volMix.nslices,
      decide (sliceSum volMix a = 0) = decide (57600 * a = 0) := by
    intro a _
    rw [sliceSum_volMix a]
  rw [List.filter_congr h]
  rfl

lemma load_exact_found {fs : String → String → Option Volume} {st : GlobalState}
    {sid : String} {zv : ℤ} {m : Mode} {i : ℕ} (mode : Mode) (n : ℕ) (rm : Bool)
    (tape : ℕ → DrawRand) (h : scanExact st.summary sid = some (m, i)) :
    load fs st mode n (some sid) (some zv) rm tape
      = finish fs (st.summary.get m) [(i, SliceSel.exact zv)] rm st := by
  simp only [load, h]

lemma processOne_exact_eq {fs : String → String → Option Volume} {root : String}
    {records : List StudyRecord} {i : ℕ} {stats : StudyRecord} {vol : Volume}
    {zv : ℤ} {z' : ℕ}
    (h2 : records.get? i = some stats)
    (h3 : fs root stats.studyid = some vol)
    (h4 : npIndex vol.nslices zv = Except.ok z') :
    processOne fs root records (SliceSel.exact zv) i = Except.ok (mkTriple vol stats z') := by
  simp only [processOne, h2, h3, h4]

lemma processOne_random_eq {fs : String → String → Option Volume} {root : String}
    {records : List StudyRecord} {i : ℕ} {stats : StudyRecord} {vol : Volume}
    {dr : DrawRand} {z0 : ℕ} {rest : List ℕ}
    (h2 : records.get? i = some stats)
    (h3 : fs root stats.studyid = some vol)
    (h4 : dr.shuffle (if dr.coin then posCandidates vol else negCandidates vol) = z0 :: rest)
    (h5 : z0 < vol.nslices) :
    processOne fs root records (SliceSel.random dr) i = Except.ok (mkTriple vol stats z0) := by
  have hz : npIndex vol.nslices (z0 : ℤ) = Except.ok z0 := by
    unfold npIndex
    rw [if_pos ⟨Int.natCast_nonneg z0, by exact_mod_cast h5⟩]
    simp
  simp only [processOne, h2, h3, h4, hz]

lemma processOne_random_empty {fs : String → String → Option Volume} {root : String}
    {records : List StudyRecord} {i : ℕ} {stats : StudyRecord} {vol : Volume}
    {dr : DrawRand}
    (h2 : records.get? i = some stats)
    (h3 : fs root stats.studyid = some vol)
    (h4 : dr.shuffle (if dr.coin then posCandidates vol else negCandidates vol) = []) :
    processOne fs root records (SliceSel.random dr) i = Except.error LoadErr.indexError := by
  simp only [processOne, h2, h3, h4]

lemma finish_state (fs : String → String → Option Volume) (records : List StudyRecord)
    (sels : List (ℕ × SliceSel)) (rm : Bool) (st : GlobalState) :
    (finish fs records sels rm st).2 = st := by
  unfold finish
  have h := processAll_state fs records sels st
  cases hq : processAll fs records sels st with
  | mk a st' =>
    rw [hq] at h
    cases a with
    | error e => simpa using h
    | ok ts =>
      cases ts with
      | nil => simpa using h
      | cons t ts' => simpa using h

lemma finish_ok_inv {fs : String → String → Option Volume} {records : List StudyRecord}
    {sels : List (ℕ × SliceSel)} {rm : Bool} {st : GlobalState} {r : LoadResult}
    (h : (finish fs records sels rm st).1 = Except.ok r) :
    ∃ ts, (processAll fs records sels st).1 = Except.ok ts ∧ ts ≠ [] ∧
      r = { dats := stackDats ts
            lbls := stackLbls ts
            msks := if rm then some (stackMsks ts) else none } := by
  unfold finish at h
  cases hq : processAll fs records sels st with
  | mk a st' =>
    rw [hq] at h
    cases a with
    | error e => cases h
    | ok ts =>
      cases ts with
      | nil => cases h
      | cons t ts' =>
        refine ⟨t :: ts', by rfl, by simp, ?_⟩
        cases h
        rfl

lemma load_exact_eval {fs : String → String → Option Volume} {st : GlobalState}
    {sid : String} {zv : ℤ} {m : Mode} {i : ℕ} {stats : StudyRecord} {vol : Volume}
    {z' : ℕ} (mode : Mode) (n : ℕ) (rm : Bool) (tape : ℕ → DrawRand)
    (h1 : scanExact st.summary sid = some (m, i))
    (h2 : (st.summary.get m).get? i = some stats)
    (h3 : fs st.root stats.studyid = some vol)
    (h4 : npIndex vol.nslices zv = Except.ok z') :
    (load fs st mode n (some sid) (some zv) rm tape).1 = Except.ok
      { dats := stackDats [mkTriple vol stats z']
        lbls := stackLbls [mkTriple vol stats z']
        msks := if rm then some (stackMsks [mkTriple vol stats z']) else none } := by
  rw [load_exact_found mode n rm tape h1]
  unfold finish
  simp only [processAll, processOne_exact_eq h2 h3 h4]

lemma npIndex_neg {len : ℕ} {z : ℤ} (h1 : -(len : ℤ) ≤ z) (h2 : z < 0) :
    npIndex len z = Except.ok (((len : ℤ) + z).toNat) := by
  unfold npIndex
  rw [if_neg (by omega), if_pos ⟨h1, h2⟩]

/-! ## Claim theorems -/

/-- C9: for every call to `load`, in either mode and whether it succeeds or
fails, the process-wide state is unchanged: the root path and the loaded
summary (both cohort sequences, hence every record's studyid/mean/sd)
observable after the call equal those observable before it. -/
theorem load_preserves_global_state (fs : String → String → Option Volume)
    (st : GlobalState) (mode : Mode) (n : ℕ) (sid : Option String) (z : Option ℤ)
    (rm : Bool) (tape : ℕ → DrawRand) :
    (load fs st mode n sid z rm tape).2.root = st.root ∧
    (load fs st mode n sid z rm tape).2.summary = st.summary := by
  have key : (load fs st mode n sid z rm tape).2 = st := by
    cases sid with
    | some s =>
      cases z with
      | some zv =>
        simp only [load]
        cases hs : scanExact st.summary s with
        | some p =>
          cases p with
          | mk m i => exact finish_state fs (st.summary.get m) _ rm st
        | none =>
          cases hr : randomSels tape st.summary.valid.length n with
          | error e => rfl
          | ok sels => exact finish_state fs st.summary.valid sels rm st
      | none =>
        simp only [load]
        cases hr : randomSels tape (st.summary.get mode).length n with
        | error e => rfl
        | ok sels => exact finish_state fs (st.summary.get mode) sels rm st
    | none =>
      cases z with
      | some zv =>
        simp only [load]
        cases hr : randomSels tape (st.summary.get mode).length n with
        | error e => rfl
        | ok sels => exact finish_state fs (st.summary.get mode) sels rm st
      | none =>
        simp only [load]
        cases hr : randomSels tape (st.summary.get mode).length n with
        | error e => rfl
        | ok sels => exact finish_state fs (st.summary.get mode) sels rm st
  exact ⟨by rw [key], by rw [key]⟩

/-- C3 (amended): for a found study whose `sd` equals 0, `load` does not
surface any `DegenerateStatistics` condition: it succeeds, silently divides
by `sd`, and every element of the normalized output is a non-finite float
(`nan`/`inf`). -/
theorem load_sd_zero_divides_to_nonfinite (fs : String → String → Option Volume)
    (st : GlobalState) (mode : Mode) (n : ℕ) (sid : String) (zv : ℤ) (m : Mode)
    (i : ℕ) (stats : StudyRecord) (vol : Volume) (z' : ℕ) (rm : Bool)
    (tape : ℕ → DrawRand)
    (h1 : scanExact st.summary sid = some (m, i))
    (h2 : (st.summary.get m).get? i = some stats)
    (h3 : fs st.root stats.studyid = some vol)
    (h4 : npIndex vol.nslices zv = Except.ok z')
    (h5 : stats.sd = 0) :
    isOk (load fs st mode n (some sid) (some zv) rm tape).1 = true ∧
    ∀ i' j c, (theDats (load fs st mode n (some sid) (some zv) rm tape).1).val 0 i' j c
      = FloatVal.nonfinite := by
  have he := load_exact_eval mode n rm tape h1 h2 h3 h4
  constructor
  · rw [he]
    rfl
  · intro i' j c
    rw [he]
    show (stackDats [mkTriple vol stats z']).val 0 i' j c = FloatVal.nonfinite
    simp [stackDats, mkTriple, normVal, h5]

/-- C3 counterexample: `load` on the study `"sz"` whose `sd` is 0 does not
fail: it returns data, and the returned normalized value is non-finite — the
claimed `DegenerateStatistics` surfacing does not happen. -/
theorem load_sd_zero_counterexample :
    isOk (load fsPos stZrec Mode.train 1 (some "sz") (some 0) false tapeNeg).1 = true ∧
    (theDats (load fsPos stZrec Mode.train 1 (some "sz") (some 0) false tapeNeg).1).val 0 0 0 0
      = FloatVal.nonfinite := by
  exact ⟨rfl, rfl⟩

theorem load_sd_zero_divides_to_nonfinite_witness :
    recZ.sd = 0 ∧
    isOk (load fsPos stZrec Mode.valid 2 (some "sz") (some 1) true tapeNeg).1 = true ∧
    (theDats (load fsPos stZrec Mode.valid 2 (some "sz") (some 1) true tapeNeg).1).val 0 5 6 2
      = FloatVal.nonfinite := by
  have h := load_sd_zero_divides_to_nonfinite fsPos stZrec Mode.valid 2 "sz" 1
    Mode.train 0 recZ volPos 1 true tapeNeg rfl rfl rfl rfl rfl
  exact ⟨rfl, h.1, h.2 5 6 2⟩

/-- C4: for every selected slice in exact mode, with the owning record's
scalars `mean`/`sd` (`sd ≠ 0`), every channel of the normalized output equals
`(v - mean) / sd` elementwise with the same single scalar pair, and the mask
equals `v[..., 0] > 0` cast to float32 — computed from the first input channel
only, with `mean`/`sd` not occurring in it. -/
theorem load_normalization_and_mask_formula (fs : String → String → Option Volume)
    (st : GlobalState) (mode : Mode) (n : ℕ) (sid : String) (zv : ℤ) (m : Mode)
    (i : ℕ) (stats : StudyRecord) (vol : Volume) (z' : ℕ) (tape : ℕ → DrawRand)
    (h1 : scanExact st.summary sid = some (m, i))
    (h2 : (st.summary.get m).get? i = some stats)
    (h3 : fs st.root stats.studyid = some vol)
    (h4 : npIndex vol.nslices zv = Except.ok z')
    (h5 : stats.sd ≠ 0) :
    (∀ i' j c, (theDats (load fs st mode n (some sid) (some zv) true tape).1).val 0 i' j c
        = FloatVal.finite (((vol.dat z' i' j c : ℚ) - stats.mean) / stats.sd)) ∧
    (∀ i' j c, (theMsk (load fs st mode n (some sid) (some zv) true tape).1).val 0 i' j c
        = if 0 < vol.dat z' i' j 0 then (1 : ℚ) else 0) := by
  have he := load_exact_eval mode n true tape h1 h2 h3 h4
  constructor
  · intro i' j c
    rw [he]
    show (stackDats [mkTriple vol stats z']).val 0 i' j c
      = FloatVal.finite (((vol.dat z' i' j c : ℚ) - stats.mean) / stats.sd)
    simp [stackDats, mkTriple, normVal, h5]
  · intro i' j c
    rw [he]
    show (theMsk (Except.ok
      { dats := stackDats [mkTriple vol stats z']
        lbls := stackLbls [mkTriple vol stats z']
        msks := if true then some (stackMsks [mkTriple vol stats z']) else none })).val 0 i' j c
      = if 0 < vol.dat z' i' j 0 then (1 : ℚ) else 0
    by_cases hd : 0 < vol.dat z' i' j 0 <;>
      simp [theMsk, theMsks, stackMsks, mkTriple, hd]

theorem load_normalization_and_mask_formula_witness :
    recA.sd ≠ 0 ∧
    (theDats (load fsPos stAB Mode.train 1 (some "s0") (some 0) true tapeNeg).1).val 0 0 0 0
      = FloatVal.finite (((volPos.dat 0 0 0 0 : ℚ) - recA.mean) / recA.sd) ∧
    (theMsk (load fsPos stAB Mode.train 1 (some "s0") (some 0) true tapeNeg).1).val 0 0 0 0
      = if 0 < volPos.dat 0 0 0 0 then (1 : ℚ) else 0 := by
  have h := load_normalization_and_mask_formula fsPos stAB Mode.train 1 "s0" 0
    Mode.train 0 recA volPos 0 tapeNeg rfl rfl rfl rfl (by decide)
  exact ⟨by decide, h.1 0 0 0, h.2 0 0 0⟩

/-- C10: in exact mode `load` does no range validation of the slice index: a
negative `z` with `-nslices ≤ z < 0` is accepted and resolves from the end of
the volume (`z = -1` is the last slice), returning that slice's data. -/
theorem load_exact_negative_index_from_end (fs : String → String → Option Volume)
    (st : GlobalState) (mode : Mode) (n : ℕ) (sid : String) (zv : ℤ) (m : Mode)
    (i : ℕ) (stats : StudyRecord) (vol : Volume) (rm : Bool) (tape : ℕ → DrawRand)
    (h1 : scanExact st.summary sid = some (m, i))
    (h2 : (st.summary.get m).get? i = some stats)
    (h3 : fs st.root stats.studyid = some vol)
    (h4 : -(vol.nslices : ℤ) ≤ zv)
    (h5 : zv < 0) :
    isOk (load fs st mode n (some sid) (some zv) rm tape).1 = true ∧
    (∀ i' j, (theLbls (load fs st mode n (some sid) (some zv) rm tape).1).val 0 i' j 0
        = vol.lbl (((vol.nslices : ℤ) + zv).toNat) i' j) ∧
    (∀ i' j c, (theDats (load fs st mode n (some sid) (some zv) rm tape).1).val 0 i' j c
        = normVal (vol.dat (((vol.nslices : ℤ) + zv).toNat) i' j c) stats.mean stats.sd) ∧
    (zv = -1 → ∀ i' j, (theLbls (load fs st mode n (some sid) (some zv) rm tape).1).val 0 i' j 0
        = vol.lbl (vol.nslices - 1) i' j) := by
  have hz := npIndex_neg h4 h5
  have he := load_exact_eval mode n rm tape h1 h2 h3 hz
  refine ⟨by rw [he]; rfl, ?_, ?_, ?_⟩
  · intro i' j
    rw [he]
    show (stackLbls [mkTriple vol stats (((vol.nslices : ℤ) + zv).toNat)]).val 0 i' j 0
      = vol.lbl (((vol.nslices : ℤ) + zv).toNat) i' j
    simp [stackLbls, mkTriple]
  · intro i' j c
    rw [he]
    show (stackDats [mkTriple vol stats (((vol.nslices : ℤ) + zv).toNat)]).val 0 i' j c
      = normVal (vol.dat (((vol.nslices : ℤ) + zv).toNat) i' j c) stats.mean stats.sd
    simp [stackDats, mkTriple]
  · intro hzv i' j
    subst hzv
    have hnat : ((vol.nslices : ℤ) + (-1)).toNat = vol.nslices - 1 := by omega
    rw [he]
    show (stackLbls [mkTriple vol stats (((vol.nslices : ℤ) + (-1)).toNat)]).val 0 i' j 0
      = vol.lbl (vol.nslices - 1) i' j
    simp [stackLbls, mkTriple, hnat]

theorem load_exact_negative_index_from_end_witness :
    (-(volMix.nslices : ℤ) ≤ -1 ∧ (-1 : ℤ) < 0) ∧
    isOk (load fsMix stAB Mode.valid 7 (some "s0") (some (-1)) false tapeNeg).1 = true ∧
    (theLbls (load fsMix stAB Mode.valid 7 (some "s0") (some (-1)) false tapeNeg).1).val 0 0 0 0
      = volMix.lbl (volMix.nslices - 1) 0 0 := by
  have h := load_exact_negative_index_from_end fsMix stAB Mode.valid 7 "s0" (-1)
    Mode.train 0 recA volMix false tapeNeg rfl rfl rfl (by decide) (by decide)
  exact ⟨⟨by decide, by decide⟩, h.1, h.2.2.2 rfl 0 0⟩

/-- Full evaluation of one concrete random-mode call on the valid cohort:
one negative-stratification draw from `stAB`'s valid cohort, identity
shuffle, study `recB` backed by `volNeg`, selecting slice 0. -/
lemma load_random_concrete_valid :
    (load fsNeg stAB Mode.valid 1 none none false tapeNeg).1 = Except.ok
      { dats := stackDats [mkTriple volNeg recB 0]
        lbls := stackLbls [mkTriple volNeg recB 0]
        msks := none } := by
  have hsh : (tapeNeg 0).shuffle
      (if (tapeNeg 0).coin then posCandidates volNeg else negCandidates volNeg)
      = 0 :: [1] := by
    simp [tapeNeg, negCandidates_volNeg]
  have hpo : processOne fsNeg stAB.root (stAB.summary.get Mode.valid)
      (SliceSel.random (tapeNeg 0)) 0 = Except.ok (mkTriple volNeg recB 0) :=
    processOne_random_eq rfl rfl hsh (by decide)
  have hpa : processAll fsNeg (stAB.summary.get Mode.valid)
      [(0, SliceSel.random (tapeNeg 0))] stAB
      = (Except.ok [mkTriple volNeg recB 0], stAB) := by
    simp only [processAll, hpo]
  have hr : randomSels tapeNeg (stAB.summary.get Mode.valid).length 1
      = Except.ok [(0, SliceSel.random (tapeNeg 0))] := rfl
  simp only [load, hr]
  show (finish fsNeg (stAB.summary.get Mode.valid)
    [(0, SliceSel.random (tapeNeg 0))] false stAB).1 = _
  unfold finish
  rw [hpa]
  rfl

/-- C1 (the code's behavior at the claim's failing input): when `sid` matches
no StudyRecord in either cohort, `load(sid, z)` does not fail and returns
data: the failed scan leaves `random = True` with the scan's loop variable
`mode` at `'valid'`, so the call behaves exactly as a random-mode load of `n`
stratified draws from the valid cohort, for every requested mode and count. -/
theorem load_unknown_sid_falls_back_to_valid_random
    (fs : String → String → Option Volume) (st : GlobalState) (mode : Mode)
    (n : ℕ) (sid : String) (zv : ℤ) (rm : Bool) (tape : ℕ → DrawRand)
    (h : (st.summary.train ++ st.summary.valid).all (fun r => !(r.studyid == sid)) = true) :
    load fs st mode n (some sid) (some zv) rm tape
      = load fs st Mode.valid n none none rm tape := by
  have hs : scanExact st.summary sid = none := scanExact_of_all_ne h
  simp only [load, hs, Summary.get]

theorem load_unknown_sid_falls_back_to_valid_random_witness :
    ((stAB.summary.train ++ stAB.summary.valid).all (fun r => !(r.studyid == "zz")) = true) ∧
    (load fsNeg stAB Mode.train 1 (some "zz") (some 0) false tapeNeg
      = load fsNeg stAB Mode.valid 1 none none false tapeNeg) ∧
    isOk (load fsNeg stAB Mode.train 1 (some "zz") (some 0) false tapeNeg).1 = true := by
  have happ := load_unknown_sid_falls_back_to_valid_random fsNeg stAB Mode.train 1 "zz" 0
    false tapeNeg (by decide)
  refine ⟨by decide, happ, ?_⟩
  rw [happ, load_random_concrete_valid]
  rfl

/-- C6: in exact mode (`sid` and `z` both provided), `load` scans `train`
before `valid`; the first matching record fixes the cohort whose volume is
used no matter which mode or count the caller requested (and no randomness is
consumed), and exactly one (study, slice) pair is produced: the batch axis of
a successful result has extent 1, with the requested `n` ignored. -/
theorem load_exact_mode_first_match_single_pair
    (fs : String → String → Option Volume) (st : GlobalState) (sid : String)
    (zv : ℤ) (m : Mode) (i : ℕ) (rm : Bool) (tape : ℕ → DrawRand)
    (h : scanExact st.summary sid = some (m, i)) :
    (∀ (mode' : Mode) (n' : ℕ) (tape' : ℕ → DrawRand),
        load fs st mode' n' (some sid) (some zv) rm tape'
          = finish fs (st.summary.get m) [(i, SliceSel.exact zv)] rm st) ∧
    ((matchIndices st.summary.train sid ≠ [] →
        m = Mode.train ∧ (matchIndices st.summary.train sid).head? = some i) ∧
     (matchIndices st.summary.train sid = [] →
        m = Mode.valid ∧ (matchIndices st.summary.valid sid).head? = some i)) ∧
    (∀ (mode' : Mode) (n' : ℕ),
        isOk (load fs st mode' n' (some sid) (some zv) rm tape).1 = true →
        (theDats (load fs st mode' n' (some sid) (some zv) rm tape).1).shape.1 = 1) := by
  refine ⟨fun mode' n' tape' => load_exact_found mode' n' rm tape' h,
    scanExact_cases h, ?_⟩
  intro mode' n' hok
  rw [load_exact_found mode' n' rm tape h] at hok ⊢
  cases hf : (finish fs (st.summary.get m) [(i, SliceSel.exact zv)] rm st).1 with
  | error e =>
    rw [hf] at hok
    simp [isOk] at hok
  | ok r =>
    obtain ⟨ts, hts, hne, hr⟩ := finish_ok_inv hf
    have hl := processAll_length fs (st.summary.get m) [(i, SliceSel.exact zv)] st ts hts
    rw [hr]
    simp [theDats, stackDats, hl]

theorem load_exact_mode_first_match_single_pair_witness :
    load fsPos stDup Mode.valid 9 (some "s0") (some 0) false tapePos
      = finish fsPos (stDup.summary.get Mode.train) [(0, SliceSel.exact 0)] false stDup ∧
    (matchIndices stDup.summary.train "s0").head? = some 0 ∧
    (isOk (load fsPos stDup Mode.valid 9 (some "s0") (some 0) false tapeNeg).1 = true →
      (theDats (load fsPos stDup Mode.valid 9 (some "s0") (some 0) false tapeNeg).1).shape.1 = 1) := by
  have h := load_exact_mode_first_match_single_pair fsPos stDup "s0" 0
    Mode.train 0 false tapeNeg rfl
  exact ⟨h.1 Mode.valid 9 tapePos, (h.2.1.1 (by decide)).2, h.2.2 Mode.valid 9⟩

lemma processAll_head_error {fs : String → String → Option Volume}
    {records : List StudyRecord} {p : ℕ × SliceSel} {rest : List (ℕ × SliceSel)}
    {st : GlobalState} {e : LoadErr}
    (h : processOne fs st.root records p.2 p.1 = Except.error e) :
    processAll fs records (p :: rest) st = (Except.error e, st) := by
  unfold processAll
  rw [h]

/-- In random mode, when the first draw's chosen stratification branch is
empty, `z[0]` on the empty shuffled array raises `IndexError` and the whole
call fails with it. -/
lemma load_first_draw_empty_aux (fs : String → String → Option Volume)
    (st : GlobalState) (mode : Mode) (n : ℕ) (rm : Bool) (tape : ℕ → DrawRand)
    (stats : StudyRecord) (vol : Volume)
    (hn : 0 < n)
    (hget : (st.summary.get mode).get? ((tape 0).studyIdx % (st.summary.get mode).length)
      = some stats)
    (hfs : fs st.root stats.studyid = some vol)
    (hshuf : (tape 0).shuffle
      (if (tape 0).coin then posCandidates vol else negCandidates vol) = []) :
    (load fs st mode n none none rm tape).1 = Except.error LoadErr.indexError := by
  have hlen : (st.summary.get mode).length ≠ 0 := by
    rcases List.get?_eq_some.mp hget with ⟨hlt, _⟩
    omega
  obtain ⟨k, rfl⟩ : ∃ k, n = k + 1 := ⟨n - 1, by omega⟩
  have hr : randomSels tape (st.summary.get mode).length (k + 1)
      = Except.ok (((tape 0).studyIdx % (st.summary.get mode).length,
            SliceSel.random (tape 0)) ::
          (List.map Nat.succ (List.range k)).map
            (fun i => ((tape i).studyIdx % (st.summary.get mode).length,
              SliceSel.random (tape i)))) := by
    unfold randomSels
    rw [if_neg hlen, List.range_succ_eq_map, List.map_cons]
  have hpo := processOne_random_empty hget hfs hshuf
  simp only [load, hr]
  show (finish fs (st.summary.get mode) _ rm st).1 = Except.error LoadErr.indexError
  unfold finish
  rw [processAll_head_error hpo]

/-- C2 (amended): in random mode, a draw whose chosen stratification branch
yields an empty candidate set does not produce a dedicated
`EmptyCandidateSet` failure: the unguarded `z[0]` access on the empty
shuffled candidate array raises the generic `IndexError`, and the call fails
with that. -/
theorem load_empty_candidate_raises_index_error (fs : String → String → Option Volume)
    (st : GlobalState) (mode : Mode) (n : ℕ) (rm : Bool) (tape : ℕ → DrawRand)
    (stats : StudyRecord) (vol : Volume)
    (hn : 0 < n)
    (hget : (st.summary.get mode).get? ((tape 0).studyIdx % (st.summary.get mode).length)
      = some stats)
    (hfs : fs st.root stats.studyid = some vol)
    (hshuf : (tape 0).shuffle
      (if (tape 0).coin then posCandidates vol else negCandidates vol) = []) :
    (load fs st mode n none none rm tape).1 = Except.error LoadErr.indexError :=
  load_first_draw_empty_aux fs st mode n rm tape stats vol hn hget hfs hshuf

theorem load_empty_candidate_raises_index_error_witness :
    ((tapePos 0).shuffle
      (if (tapePos 0).coin then posCandidates volNeg else negCandidates volNeg) = []) ∧
    (load fsNeg stAB Mode.train 1 none none true tapePos).1
      = Except.error LoadErr.indexError := by
  have hshuf : (tapePos 0).shuffle
      (if (tapePos 0).coin then posCandidates volNeg else negCandidates volNeg) = [] := by
    simp [tapePos, posCandidates_volNeg]
  exact ⟨hshuf,
    load_empty_candidate_raises_index_error fsNeg stAB Mode.train 1 true tapePos
      recA volNeg (by decide) rfl rfl hshuf⟩

/-- C2 counterexample: with a study having no positive-label slice and the
tumor-positive branch chosen, `load` fails with the plain `IndexError` of the
out-of-bounds access — there is no `EmptyCandidateSet` error in the code. -/
theorem load_empty_candidate_counterexample :
    (load fsNeg stAB Mode.train 2 none none false tapePos).1
      = Except.error LoadErr.indexError := by
  apply load_first_draw_empty_aux fsNeg stAB Mode.train 2 false tapePos recA volNeg
    (by decide) rfl rfl
  simp [tapePos, posCandidates_volNeg]

lemma randomSels_ok_inv {tape : ℕ → DrawRand} {len n : ℕ}
    {sels : List (ℕ × SliceSel)} (h : randomSels tape len n = Except.ok sels) :
    len ≠ 0 ∧ sels = (List.range n).map
      (fun i => ((tape i).studyIdx % len, SliceSel.random (tape i))) := by
  unfold randomSels at h
  by_cases hl : len = 0
  · rw [if_pos hl] at h
    cases h
  · rw [if_neg hl] at h
    cases h
    exact ⟨hl, rfl⟩

/-- Full evaluation of one concrete random-mode call: a single draw from the
train cohort of `stAB`, negative-stratification coin, identity shuffle over
the all-negative study `volNeg`, selecting slice 0. -/
lemma load_random_concrete :
    (load fsNeg stAB Mode.train 1 none none true tapeNeg).1 = Except.ok
      { dats := stackDats [mkTriple volNeg recA 0]
        lbls := stackLbls [mkTriple volNeg recA 0]
        msks := some (stackMsks [mkTriple volNeg recA 0]) } := by
  have hsh : (tapeNeg 0).shuffle
      (if (tapeNeg 0).coin then posCandidates volNeg else negCandidates volNeg)
      = 0 :: [1] := by
    simp [tapeNeg, negCandidates_volNeg]
  have hpo : processOne fsNeg stAB.root (stAB.summary.get Mode.train)
      (SliceSel.random (tapeNeg 0)) 0 = Except.ok (mkTriple volNeg recA 0) :=
    processOne_random_eq rfl rfl hsh (by decide)
  have hpa : processAll fsNeg (stAB.summary.get Mode.train)
      [(0, SliceSel.random (tapeNeg 0))] stAB
      = (Except.ok [mkTriple volNeg recA 0], stAB) := by
    simp only [processAll, hpo]
  have hr : randomSels tapeNeg (stAB.summary.get Mode.train).length 1
      = Except.ok [(0, SliceSel.random (tapeNeg 0))] := rfl
  simp only [load, hr]
  show (finish fsNeg (stAB.summary.get Mode.train)
    [(0, SliceSel.random (tapeNeg 0))] true stAB).1 = _
  unfold finish
  rw [hpa]
  rfl

/-- C5: every successful random-mode `load(mode, n)` returns an input array of
shape `(n, 240, 240, 4)` and dtype float32 and a label array of shape
`(n, 240, 240, 1)` and dtype uint8, and — when `return_mask` is set — also a
mask of shape `(n, 240, 240, 1)` and dtype float32 whose every element is 0
or 1, all stacked along a new leading batch axis. -/
theorem load_random_output_shapes_dtypes (fs : String → String → Option Volume)
    (st : GlobalState) (mode : Mode) (n : ℕ) (rm : Bool) (tape : ℕ → DrawRand)
    (hok : isOk (load fs st mode n none none rm tape).1 = true) :
    (theDats (load fs st mode n none none rm tape).1).shape = (n, 240, 240, 4) ∧
    (theDats (load fs st mode n none none rm tape).1).dtype = DType.float32 ∧
    (theLbls (load fs st mode n none none rm tape).1).shape = (n, 240, 240, 1) ∧
    (theLbls (load fs st mode n none none rm tape).1).dtype = DType.uint8 ∧
    (rm = true →
      (theMsks (load fs st mode n none none rm tape).1).isSome = true ∧
      (theMsk (load fs st mode n none none rm tape).1).shape = (n, 240, 240, 1) ∧
      (theMsk (load fs st mode n none none rm tape).1).dtype = DType.float32 ∧
      ∀ b i j c, (theMsk (load fs st mode n none none rm tape).1).val b i j c = 0 ∨
        (theMsk (load fs st mode n none none rm tape).1).val b i j c = 1) := by
  cases hr : randomSels tape (st.summary.get mode).length n with
  | error e =>
    rw [show (load fs st mode n none none rm tape).1 = Except.error e from by
      simp only [load, hr]] at hok
    simp [isOk] at hok
  | ok sels =>
    obtain ⟨hlen, hsels⟩ := randomSels_ok_inv hr
    have hsl : sels.length = n := by
      rw [hsels]
      simp
    have hload1 : (load fs st mode n none none rm tape).1
        = (finish fs (st.summary.get mode) sels rm st).1 := by
      simp only [load, hr]
    rw [hload1] at hok ⊢
    cases hf : (finish fs (st.summary.get mode) sels rm st).1 with
    | error e =>
      rw [hf] at hok
      simp [isOk] at hok
    | ok r =>
      obtain ⟨ts, hts, hne, hr2⟩ := finish_ok_inv hf
      have hl : ts.length = n := by
        rw [processAll_length fs (st.summary.get mode) sels st ts hts, hsl]
      rw [hr2]
      refine ⟨by simp [theDats, stackDats, hl], by simp [theDats, stackDats, normDType],
        by simp [theLbls, stackLbls, hl], by simp [theLbls, stackLbls], ?_⟩
      intro hrm
      subst hrm
      refine ⟨by simp [theMsks], by simp [theMsk, theMsks, stackMsks, hl],
        by simp [theMsk, theMsks, stackMsks], ?_⟩
      intro b i j c
      simp only [theMsk, theMsks, stackMsks, if_true, Option.getD_some]
      cases hg : ts.get? b with
      | none => simp [hg]
      | some t =>
        by_cases hm : t.msk i j <;> simp [hg, hm]

theorem load_random_output_shapes_dtypes_witness :
    isOk (load fsNeg stAB Mode.train 1 none none true tapeNeg).1 = true ∧
    (theDats (load fsNeg stAB Mode.train 1 none none true tapeNeg).1).shape
      = (1, 240, 240, 4) ∧
    (theDats (load fsNeg stAB Mode.train 1 none none true tapeNeg).1).dtype
      = DType.float32 ∧
    (theLbls (load fsNeg stAB Mode.train 1 none none true tapeNeg).1).shape
      = (1, 240, 240, 1) ∧
    (theMsks (load fsNeg stAB Mode.train 1 none none true tapeNeg).1).isSome = true ∧
    ((theMsk (load fsNeg stAB Mode.train 1 none none true tapeNeg).1).val 0 0 0 0 = 0 ∨
      (theMsk (load fsNeg stAB Mode.train 1 none none true tapeNeg).1).val 0 0 0 0 = 1) := by
  have hok : isOk (load fsNeg stAB Mode.train 1 none none true tapeNeg).1 = true := by
    rw [load_random_concrete]
    rfl
  have h := load_random_output_shapes_dtypes fsNeg stAB Mode.train 1 true tapeNeg hok
  exact ⟨hok, h.1, h.2.1, h.2.2.1, (h.2.2.2.2 rfl).1, (h.2.2.2.2 rfl).2.2.2 0 0 0 0⟩

/-- C7: in random mode each of the `n` draws is independent — the whole call
depends only on the tape entries with index below `n`, and the `i`-th batch
entry is computed from `tape i` alone — and follows the stratified policy:
the study is the one at position `studyIdx % cohortLength` (the uniform
`randint` draw) of the requested cohort, the candidate slice indices are the
tumor-positive ones when the probability-1/2 coin is set and the
tumor-negative ones otherwise, and the selected slice index is the first
element of the shuffled candidate set. -/
theorem load_random_draw_policy (fs : String → String → Option Volume)
    (st : GlobalState) (mode : Mode) (n : ℕ) (rm : Bool) (tape : ℕ → DrawRand)
    (i : ℕ) (stats : StudyRecord) (vol : Volume) (z0 : ℕ) (rest : List ℕ)
    (hi : i < n)
    (hget : (st.summary.get mode).get? ((tape i).studyIdx % (st.summary.get mode).length)
      = some stats)
    (hfs : fs st.root stats.studyid = some vol)
    (hshuf : (tape i).shuffle
      (if (tape i).coin then posCandidates vol else negCandidates vol) = z0 :: rest)
    (hz : z0 < vol.nslices)
    (hok : isOk (load fs st mode n none none rm tape).1 = true) :
    (∀ i' j c, (theDats (load fs st mode n none none rm tape).1).val i i' j c
        = normVal (vol.dat z0 i' j c) stats.mean stats.sd) ∧
    (∀ i' j, (theLbls (load fs st mode n none none rm tape).1).val i i' j 0
        = vol.lbl z0 i' j) ∧
    (∀ tape2 : ℕ → DrawRand, (∀ k, k < n → tape2 k = tape k) →
        load fs st mode n none none rm tape2 = load fs st mode n none none rm tape) := by
  have hindep : ∀ tape2 : ℕ → DrawRand, (∀ k, k < n → tape2 k = tape k) →
      load fs st mode n none none rm tape2 = load fs st mode n none none rm tape := by
    intro tape2 hagree
    have hmap : randomSels tape2 (st.summary.get mode).length n
        = randomSels tape (st.summary.get mode).length n := by
      unfold randomSels
      by_cases hl : (st.summary.get mode).length = 0
      · rw [if_pos hl, if_pos hl]
      · rw [if_neg hl, if_neg hl]
        congr 1
        apply List.map_congr_left
        intro k hk
        rw [hagree k (List.mem_range.mp hk)]
    simp only [load, hmap]
  obtain ⟨ts, hloadeq, htg⟩ : ∃ ts : List SliceTriple,
      ((load fs st mode n none none rm tape).1 = Except.ok
        { dats := stackDats ts
          lbls := stackLbls ts
          msks := if rm then some (stackMsks ts) else none }) ∧
      ts.get? i = some (mkTriple vol stats z0) := by
    cases hr : randomSels tape (st.summary.get mode).length n with
    | error e =>
      rw [show (load fs st mode n none none rm tape).1 = Except.error e from by
        simp only [load, hr]] at hok
      simp [isOk] at hok
    | ok sels =>
      obtain ⟨hlen, hsels⟩ := randomSels_ok_inv hr
      have hload1 : (load fs st mode n none none rm tape).1
          = (finish fs (st.summary.get mode) sels rm st).1 := by
        simp only [load, hr]
      rw [hload1] at hok ⊢
      cases hf : (finish fs (st.summary.get mode) sels rm st).1 with
      | error e =>
        rw [hf] at hok
        simp [isOk] at hok
      | ok r =>
        obtain ⟨ts, hts, hne, hr2⟩ := finish_ok_inv hf
        have hsget : sels.get? i
            = some ((tape i).studyIdx % (st.summary.get mode).length,
                SliceSel.random (tape i)) := by
          rw [hsels, List.get?_map, List.get?_range hi]
          rfl
        obtain ⟨t, htg, hpt⟩ := processAll_get fs (st.summary.get mode) sels st ts hts i _ hsget
        have hteq := processOne_random_eq hget hfs hshuf hz
        rw [hpt] at hteq
        refine ⟨ts, by rw [hr2], ?_⟩
        rw [htg, Except.ok.inj hteq]
  refine ⟨?_, ?_, hindep⟩
  · intro i' j c
    rw [hloadeq]
    show (stackDats ts).val i i' j c = normVal (vol.dat z0 i' j c) stats.mean stats.sd
    simp only [stackDats, htg, mkTriple]
  · intro i' j
    rw [hloadeq]
    show (stackLbls ts).val i i' j 0 = vol.lbl z0 i' j
    simp only [stackLbls, htg, mkTriple]

theorem load_random_draw_policy_witness :
    ((tapeNeg 0).shuffle
      (if (tapeNeg 0).coin then posCandidates volNeg else negCandidates volNeg)
      = 0 :: [1]) ∧
    (theDats (load fsNeg stAB Mode.train 1 none none true tapeNeg).1).val 0 0 0 0
      = normVal (volNeg.dat 0 0 0 0) recA.mean recA.sd ∧
    (theLbls (load fsNeg stAB Mode.train 1 none none true tapeNeg).1).val 0 0 0 0
      = volNeg.lbl 0 0 0 := by
  have hsh : (tapeNeg 0).shuffle
      (if (tapeNeg 0).coin then posCandidates volNeg else negCandidates volNeg)
      = 0 :: [1] := by
    simp [tapeNeg, negCandidates_volNeg]
  have hok : isOk (load fsNeg stAB Mode.train 1 none none true tapeNeg).1 = true := by
    rw [load_random_concrete]
    rfl
  have h := load_random_draw_policy fsNeg stAB Mode.train 1 true tapeNeg 0 recA volNeg
    0 [1] (by decide) rfl rfl hsh (by decide) hok
  exact ⟨hsh, h.1 0 0 0, h.2.1 0 0⟩

lemma buildSummary_perm (sq : ℚ → ℚ) (coins : ℕ → Bool) :
    ∀ (studies : List ScannedStudy) (k : ℕ) (acc : Summary),
      ((buildSummary sq coins k studies acc).train
          ++ (buildSummary sq coins k studies acc).valid).Perm
        (acc.train ++ acc.valid ++ studies.map (studyRecordOf sq)) := by
  intro studies
  induction studies with
  | nil =>
    intro k acc
    simp [buildSummary]
  | cons s rest ih =>
    intro k acc
    simp only [buildSummary, List.map_cons]
    by_cases hc : coins k
    · rw [if_pos hc]
      have h := ih (k + 1) { acc with train := acc.train ++ [studyRecordOf sq s] }
      refine h.trans ?_
      simp only [List.append_assoc]
      exact List.Perm.append_left acc.train
        (by simpa using
          (@List.perm_middle _ (studyRecordOf sq s) acc.valid
            (rest.map (studyRecordOf sq))).symm)
    · rw [if_neg hc]
      have h := ih (k + 1) { acc with valid := acc.valid ++ [studyRecordOf sq s] }
      refine h.trans ?_
      simp only [List.append_assoc]
      exact List.Perm.refl _

lemma create_summary_perm (sq : ℚ → ℚ) (studies : List ScannedStudy)
    (coins : ℕ → Bool) :
    (((create_summary sq studies coins).train
        ++ (create_summary sq studies coins).valid)).Perm
      (studies.map (studyRecordOf sq)) := by
  have h := buildSummary_perm sq coins studies 0 ⟨[], []⟩
  simpa [create_summary] using h

/-- C8: for every summary built by `create_summary`, the two cohort lists
together are a permutation of the records of the scanned studies (none
omitted, none duplicated), and — the scanned directory names being distinct —
each scanned study's record lands in exactly one of the two cohorts. -/
theorem create_summary_partitions_studies (sq : ℚ → ℚ)
    (studies : List ScannedStudy) (coins : ℕ → Bool)
    (hnd : (studies.map ScannedStudy.sid).Nodup) :
    (((create_summary sq studies coins).train
        ++ (create_summary sq studies coins).valid).Perm
      (studies.map (studyRecordOf sq))) ∧
    ∀ s ∈ studies,
      (studyRecordOf sq s ∈ (create_summary sq studies coins).train ∧
        studyRecordOf sq s ∉ (create_summary sq studies coins).valid) ∨
      (studyRecordOf sq s ∉ (create_summary sq studies coins).train ∧
        studyRecordOf sq s ∈ (create_summary sq studies coins).valid) := by
  have hperm := create_summary_perm sq studies coins
  refine ⟨hperm, ?_⟩
  intro s hs
  have hmem : studyRecordOf sq s
      ∈ (create_summary sq studies coins).train ++ (create_summary sq studies coins).valid :=
    hperm.mem_iff.mpr (List.mem_map_of_mem _ hs)
  have hmm : (studies.map (studyRecordOf sq)).map StudyRecord.studyid
      = studies.map ScannedStudy.sid := by
    rw [List.map_map]
    exact List.map_congr_left (fun x _ => rfl)
  have hndm : ((studies.map (studyRecordOf sq)).map StudyRecord.studyid).Nodup := by
    rw [hmm]
    exact hnd
  have hndr : (studies.map (studyRecordOf sq)).Nodup :=
    List.Nodup.of_map _ hndm
  have hnd2 : ((create_summary sq studies coins).train
      ++ (create_summary sq studies coins).valid).Nodup :=
    hperm.nodup_iff.mpr hndr
  rw [List.nodup_append] at hnd2
  obtain ⟨_, _, hdisj⟩ := hnd2
  rcases List.mem_append.mp hmem with h1 | h2
  · exact Or.inl ⟨h1, fun h2 => hdisj h1 h2⟩
  · exact Or.inr ⟨fun h1 => hdisj h1 h2, h2⟩

theorem create_summary_partitions_studies_witness :
    (studiesW.map ScannedStudy.sid).Nodup ∧
    (((create_summary id studiesW coinsW).train
        ++ (create_summary id studiesW coinsW).valid).Perm
      (studiesW.map (studyRecordOf id))) ∧
    ((studyRecordOf id ⟨"a", [1, -2, 3]⟩ ∈ (create_summary id studiesW coinsW).train ∧
        studyRecordOf id ⟨"a", [1, -2, 3]⟩ ∉ (create_summary id studiesW coinsW).valid) ∨
      (studyRecordOf id ⟨"a", [1, -2, 3]⟩ ∉ (create_summary id studiesW coinsW).train ∧
        studyRecordOf id ⟨"a", [1, -2, 3]⟩ ∈ (create_summary id studiesW coinsW).valid)) := by
  have h := create_summary_partitions_studies id studiesW coinsW (by decide)
  exact ⟨by decide, h.1, h.2 ⟨"a", [1, -2, 3]⟩ (by decide)⟩

end DataPy
